import Mathlib

/-!
Verification of the ray versus primitive intersection and CSG
evaluation core of the repository (src/src/geometry.cpp) against its
natural language specification.

The C++ doubles are modelled as real numbers (so Lean division is
total, with x / 0 = 0).  The mutable IntersectionData record that the
C++ code threads by reference is made explicit: every intersect
function returns the boolean result together with the record it
leaves behind, so that a false return with a mutated record would be
visible.  Geometry objects are compared by pointer identity in the
C++ code; here every node of the geometry tree is identified by its
path from the root (left child extends the path with false, right
child with true), which identifies a node exactly when the pointer
does.  The unbounded while loop of CsgOp::findAllIntersections is
modelled with an explicit fuel parameter; all statements quantify
over the fuel.
-/

structure Vec3 where
  x : ℝ
  y : ℝ
  z : ℝ

instance : Add Vec3 := ⟨fun a b => ⟨a.x + b.x, a.y + b.y, a.z + b.z⟩⟩

instance : Sub Vec3 := ⟨fun a b => ⟨a.x - b.x, a.y - b.y, a.z - b.z⟩⟩

/-- Scaling of a vector by a scalar, the Vector times double operator of the source. -/
def Vec3.smul (v : Vec3) (k : ℝ) : Vec3 := ⟨v.x * k, v.y * k, v.z * k⟩

/-- Dot product of two vectors. -/
def Vec3.dot (a b : Vec3) : ℝ := a.x * b.x + a.y * b.y + a.z * b.z

/-- Squared length of a vector. -/
def Vec3.lengthSqr (v : Vec3) : ℝ := v.x * v.x + v.y * v.y + v.z * v.z

/-- Length of a vector. -/
noncomputable def Vec3.length (v : Vec3) : ℝ := Real.sqrt v.lengthSqr

/-- Modelled from the spec: vector.h is not under src/, and section 3 of the
spec lists normalization among the Vector3 operations; a vector is normalized
by scaling it with the inverse of its length. -/
noncomputable def Vec3.normalize (v : Vec3) : Vec3 := v.smul (1 / v.length)

/-- A ray: origin and direction, as in the source. -/
structure Ray where
  start : Vec3
  dir : Vec3

/-- The IntersectionData record of the source: best distance so far, the hit
point, the surface normal, the surface coordinates u and v, and the owner
geometry g, modelled as the tree path identifying the geometry node. -/
structure IData where
  dist : ℝ
  p : Vec3
  normal : Vec3
  u : ℝ
  v : ℝ
  g : List Bool

/-- The no-hit guard at the top of Plane::intersect: the ray origin is above
the plane but the ray does not meaningfully descend, or the origin is below
but the ray does not meaningfully ascend. -/
def planeGuard (y : ℝ) (ray : Ray) : Prop :=
  (ray.start.y > y ∧ ray.dir.y > -1e-9) ∨ (ray.start.y < y ∧ ray.dir.y < 1e-9)

noncomputable instance (y : ℝ) (ray : Ray) : Decidable (planeGuard y ray) :=
  inferInstanceAs
    (Decidable ((ray.start.y > y ∧ ray.dir.y > -1e-9) ∨ (ray.start.y < y ∧ ray.dir.y < 1e-9)))

/-- Plane::intersect from the source: the guard, the linear solve
mult = (start.y - y) / -dir.y, the distance test against the record, and on
acceptance the write of every output field. -/
noncomputable def planeIntersect (y : ℝ) (path : List Bool) (ray : Ray) (data : IData) :
    Bool × IData :=
  if planeGuard y ray then (false, data)
  else
    let yDiff : ℝ := ray.dir.y
    let wantYDiff : ℝ := ray.start.y - y
    let mult : ℝ := wantYDiff / -yDiff
    if mult > data.dist then (false, data)
    else
      let p := ray.start + ray.dir.smul mult
      (true, { dist := mult, p := p, normal := ⟨0, 1, 0⟩, u := p.x, v := p.z, g := path })

/-- Coefficient A of the sphere quadratic, dir dot dir. -/
def sphereA (ray : Ray) : ℝ := ray.dir.lengthSqr

/-- Coefficient B of the sphere quadratic. -/
def sphereB (center : Vec3) (ray : Ray) : ℝ := 2 * (ray.start - center).dot ray.dir

/-- Constant coefficient of the sphere quadratic. -/
def sphereCcoef (center : Vec3) (R : ℝ) (ray : Ray) : ℝ :=
  (ray.start - center).lengthSqr - R * R

/-- Discriminant of the sphere quadratic. -/
def sphereDscr (center : Vec3) (R : ℝ) (ray : Ray) : ℝ :=
  sphereB center ray * sphereB center ray - 4 * sphereA ray * sphereCcoef center R ray

/-- The larger root x1 of the sphere quadratic. -/
noncomputable def sphereX1 (center : Vec3) (R : ℝ) (ray : Ray) : ℝ :=
  (-sphereB center ray + Real.sqrt (sphereDscr center R ray)) / (2 * sphereA ray)

/-- The smaller root x2 of the sphere quadratic. -/
noncomputable def sphereX2 (center : Vec3) (R : ℝ) (ray : Ray) : ℝ :=
  (-sphereB center ray - Real.sqrt (sphereDscr center R ray)) / (2 * sphereA ray)

/-- The argument the source passes to asin when computing the v coordinate of
a sphere hit: the raw quotient (p.y - center.y) / R, with no clamping. -/
noncomputable def sphereAsinArg (py cy R : ℝ) : ℝ := (py - cy) / R

/-- Modelled from the spec: section 7 requires the asin argument to be clamped
to the interval from -1 to 1 before the call; the clamped variant of
sphereAsinArg. -/
noncomputable def sphereAsinArgClamped (py cy R : ℝ) : ℝ := max (-1) (min 1 ((py - cy) / R))

/-- The atan2 of the C library, used by the source for the u coordinate:
the argument of the complex number x + y i. -/
noncomputable def atan2 (y x : ℝ) : ℝ := Complex.arg ⟨x, y⟩

/-- Sphere::intersect from the source: quadratic solve, root selection
(prefer the smaller root x2, fall back to x1, reject if still negative),
distance test, and on acceptance the write of every output field. -/
noncomputable def sphereIntersect (center : Vec3) (R : ℝ) (path : List Bool) (ray : Ray)
    (info : IData) : Bool × IData :=
  if sphereDscr center R ray < 0 then (false, info)
  else
    let sol : ℝ :=
      if sphereX2 center R ray < 0 then sphereX1 center R ray else sphereX2 center R ray
    if sol < 0 then (false, info)
    else if sol > info.dist then (false, info)
    else
      let p := ray.start + ray.dir.smul sol
      (true,
        { dist := sol, p := p, normal := (p - center).normalize,
          u := (Real.pi + atan2 (p.z - center.z) (p.x - center.x)) / (2 * Real.pi),
          v := 1 - (Real.pi / 2 + Real.arcsin (sphereAsinArg p.y center.y R)) / Real.pi,
          g := path })

/-- Modelled from the spec: project and unproject with indices 1, 0, 2 come
from vector.h, which is not under src/; per section 4.3 the X face test of the
cube reuses the Y face test by swapping the axis roles, and the same swap maps
the written point and normal back to world axes. -/
def swapXY (v : Vec3) : Vec3 := ⟨v.y, v.x, v.z⟩

/-- Modelled from the spec: project and unproject with indices 0, 2, 1 come
from vector.h, which is not under src/; the Z face test of the cube swaps the
Y and Z axis roles. -/
def swapYZ (v : Vec3) : Vec3 := ⟨v.x, v.z, v.y⟩

/-- Axis swap applied to a whole ray, origin and direction. -/
def swapRayXY (r : Ray) : Ray := ⟨swapXY r.start, swapXY r.dir⟩

/-- Axis swap applied to a whole ray, origin and direction. -/
def swapRayYZ (r : Ray) : Ray := ⟨swapYZ r.start, swapYZ r.dir⟩

/-- One iteration of the loop in Cube::intersectCubeSide, for one face (side
s = -1 or s = 1): the plane style solve against the face height, the forward
test, the distance test, the in-bounds test on the two remaining coordinates,
and on acceptance the write of the output fields (g is written later, by
Cube::intersect). -/
noncomputable def cubeSideStep (halfSide : ℝ) (center : Vec3) (ray : Ray) (s : ℝ)
    (fd : Bool × IData) : Bool × IData :=
  let yDiff : ℝ := ray.dir.y
  let wantYDiff : ℝ := ray.start.y - (center.y + s * halfSide)
  let mult : ℝ := wantYDiff / -yDiff
  if mult < 0 then fd
  else if mult > fd.2.dist then fd
  else
    let p := ray.start + ray.dir.smul mult
    if p.x < center.x - halfSide ∨ p.x > center.x + halfSide ∨
        p.z < center.z - halfSide ∨ p.z > center.z + halfSide then fd
    else
      (true, { fd.2 with p := p, dist := mult, normal := Vec3.mk 0 s 0,
                         u := p.x - center.x, v := p.z - center.z })

/-- Cube::intersectCubeSide from the source: skip the axis entirely when the
vertical direction component is tiny, otherwise run the loop body for side -1
and then side 1; found starts false on every call.  halfSide is received from
the caller (the source computes side * 0.5 from the cube field). -/
noncomputable def intersectCubeSide (halfSide : ℝ) (ray : Ray) (center : Vec3)
    (data : IData) : Bool × IData :=
  if |ray.dir.y| < 1e-9 then (false, data)
  else cubeSideStep halfSide center ray 1 (cubeSideStep halfSide center ray (-1) (false, data))

/-- Cube::intersect from the source: the Y face test directly, the X and Z
face tests through the axis swaps, unswapping the newly written normal and
point after each projected test that reports a hit, and the owner write when
any of the three tests found a hit. -/
noncomputable def cubeIntersect (center : Vec3) (side : ℝ) (path : List Bool) (ray : Ray)
    (data : IData) : Bool × IData :=
  let halfSide := side * 0.5
  let r1 := intersectCubeSide halfSide ray center data
  let r2 := intersectCubeSide halfSide (swapRayXY ray) (swapXY center) r1.2
  let r2s := if r2.1 then { r2.2 with normal := swapXY r2.2.normal, p := swapXY r2.2.p }
    else r2.2
  let r3 := intersectCubeSide halfSide (swapRayYZ ray) (swapYZ center) r2s
  let r3s := if r3.1 then { r3.2 with normal := swapYZ r3.2.normal, p := swapYZ r3.2.p }
    else r3.2
  if r1.1 || r2.1 || r3.1 then (true, { r3s with g := path }) else (false, r3s)

/-- The face candidate of one side of one axis pair, independent of the
record: the ray parameter of the face plane hit when it is forward and lands
within the face bounds. -/
noncomputable def cubeSideCand (halfSide : ℝ) (center : Vec3) (ray : Ray) (s : ℝ) :
    Option ℝ :=
  let mult : ℝ := (ray.start.y - (center.y + s * halfSide)) / -ray.dir.y
  let p := ray.start + ray.dir.smul mult
  if mult < 0 then none
  else if p.x < center.x - halfSide ∨ p.x > center.x + halfSide ∨
      p.z < center.z - halfSide ∨ p.z > center.z + halfSide then none
  else some mult

/-- The candidates one axis pair contributes: none at all when the vertical
direction component is tiny, otherwise the candidates of its two faces. -/
noncomputable def cubeSideCands (halfSide : ℝ) (center : Vec3) (ray : Ray) : List ℝ :=
  if |ray.dir.y| < 1e-9 then []
  else (cubeSideCand halfSide center ray (-1)).toList ++
    (cubeSideCand halfSide center ray 1).toList

/-- All face candidates of the cube: the Y axis pair directly and the X and Z
axis pairs through the axis swaps, in the order the code runs the tests. -/
noncomputable def cubeCands (center : Vec3) (side : ℝ) (ray : Ray) : List ℝ :=
  cubeSideCands (side * 0.5) center ray ++
    cubeSideCands (side * 0.5) (swapXY center) (swapRayXY ray) ++
    cubeSideCands (side * 0.5) (swapYZ center) (swapRayYZ ray)

/-- Fold of min over a list with a starting value. -/
noncomputable def listMin (e : ℝ) (l : List ℝ) : ℝ := l.foldr min e

/-- The geometry variants of the source: Plane, Sphere, Cube and CsgOp with
its boolean membership operation and two children. -/
inductive Geometry where
  | plane (y : ℝ)
  | sphere (center : Vec3) (R : ℝ)
  | cube (center : Vec3) (side : ℝ)
  | csg (op : Bool → Bool → Bool) (left : Geometry) (right : Geometry)

/-- True for the three primitive leaf variants. -/
def Geometry.isPrimitive : Geometry → Bool
  | .csg _ _ _ => false
  | _ => true

/-- The identity paths of the primitive leaves of a geometry tree rooted at
the given path. -/
def leafPaths : Geometry → List Bool → List (List Bool)
  | .plane _, path => [path]
  | .sphere _ _, path => [path]
  | .cube _ _, path => [path]
  | .csg _ l r, path => leafPaths l (path ++ [false]) ++ leafPaths r (path ++ [true])

/-- The fresh probe record findAllIntersections builds for every probe: dist
is the 1e99 sentinel; the C++ leaves the other fields uninitialized, modelled
as zeros and an empty owner path (any successful child intersect overwrites
every field). -/
noncomputable def freshProbe : IData :=
  { dist := 1e99, p := ⟨0, 0, 0⟩, normal := ⟨0, 0, 0⟩, u := 0, v := 0, g := [] }

/-- The owner comparison of the CsgOp sweep, current.g == left in the source,
with geometry identity modelled as the tree path of the node: the sweep flips
the left flag exactly when this test holds, and the right flag otherwise. -/
def csgFlipsLeft (leftPath : List Bool) (cur : IData) : Bool := cur.g == leftPath

/-- The sweep loop of CsgOp::intersect over the merged ordered hit list: at
each hit flip the flag chosen by the owner comparison, then if the boolean
operation holds, either fail (the hit does not beat the incoming record
distance) or answer with that hit. -/
noncomputable def csgSweep (op : Bool → Bool → Bool) (leftPath : List Bool) (dataDist : ℝ) :
    List IData → Bool → Bool → Option IData
  | [], _, _ => none
  | cur :: rest, inL, inR =>
    let inL2 := if csgFlipsLeft leftPath cur then !inL else inL
    let inR2 := if csgFlipsLeft leftPath cur then inR else !inR
    if op inL2 inR2 then (if cur.dist > dataDist then none else some cur)
    else csgSweep op leftPath dataDist rest inL2 inR2

/-- CsgOp::findAllIntersections from the source, for one child: probe the
child with a fresh record, accumulate the walked distance into the hit,
advance the ray origin just past the hit point and repeat until the child
misses.  The C++ loop is unbounded; fuel bounds it here. -/
noncomputable def findAllAux (child : Ray → IData → Bool × IData) :
    ℕ → Ray → ℝ → List IData
  | 0, _, _ => []
  | fuel + 1, ray, currentLength =>
    let res := child ray freshProbe
    if res.1 then
      let temp := res.2
      let acc : IData := { temp with dist := temp.dist + currentLength }
      acc :: findAllAux child fuel { ray with start := temp.p + ray.dir.smul 1e-6 } acc.dist
    else []

/-- Insertion of a hit into a list ordered by ascending distance. -/
noncomputable def insertByDist (x : IData) : List IData → List IData
  | [] => [x]
  | y :: ys => if x.dist < y.dist then x :: y :: ys else y :: insertByDist x ys

/-- The sort of the merged hit list by ascending distance (std::sort with the
comparator on dist in the source; ties are unordered there and the spec does
not rely on tie order). -/
noncomputable def sortByDist (l : List IData) : List IData := l.foldr insertByDist []

/-- Geometry::intersect, dispatching on the variant.  The CsgOp case is
CsgOp::intersect from the source: enumerate all hits of each child, merge and
sort them, seed the inside flags from the parity of each child hit count, and
sweep. -/
noncomputable def intersect : Geometry → ℕ → List Bool → Ray → IData → Bool × IData
  | .plane y, _, path, ray, data => planeIntersect y path ray data
  | .sphere c R, _, path, ray, data => sphereIntersect c R path ray data
  | .cube c s, _, path, ray, data => cubeIntersect c s path ray data
  | .csg op l r, fuel, path, ray, data =>
    let L := findAllAux (fun rr dd => intersect l fuel (path ++ [false]) rr dd) fuel ray 0
    let R := findAllAux (fun rr dd => intersect r fuel (path ++ [true]) rr dd) fuel ray 0
    let all := sortByDist (L ++ R)
    match csgSweep op (path ++ [false]) data.dist all (L.length % 2 == 1) (R.length % 2 == 1) with
    | none => (false, data)
    | some cur => (true, cur)

/-- The complete hit list CsgOp::intersect gathers for one child: the
findAllIntersections enumeration of that child, probed with its own identity
path and an initial walked distance of zero. -/
noncomputable def csgChildHits (g : Geometry) (fuel : ℕ) (childPath : List Bool) (ray : Ray) :
    List IData :=
  findAllAux (fun rr dd => intersect g fuel childPath rr dd) fuel ray 0

lemma listMin_nil (e : ℝ) : listMin e [] = e := rfl

lemma listMin_cons (e x : ℝ) (l : List ℝ) : listMin e (x :: l) = min x (listMin e l) := rfl

lemma listMin_le_init (e : ℝ) (l : List ℝ) : listMin e l ≤ e := by
  induction l with
  | nil => exact le_rfl
  | cons x l ih => exact le_trans (min_le_right _ _) ih

lemma listMin_le_mem (e : ℝ) {l : List ℝ} {x : ℝ} (hx : x ∈ l) : listMin e l ≤ x := by
  induction l with
  | nil => cases hx
  | cons y l ih =>
    rcases List.mem_cons.mp hx with h | h
    · subst h; exact min_le_left _ _
    · exact le_trans (min_le_right _ _) (ih h)

lemma listMin_attained (e : ℝ) (l : List ℝ) : listMin e l = e ∨ listMin e l ∈ l := by
  induction l with
  | nil => exact Or.inl rfl
  | cons x l ih =>
    rcases le_total x (listMin e l) with h | h
    · exact Or.inr (by rw [listMin_cons, min_eq_left h]; exact List.mem_cons_self _ _)
    · rw [listMin_cons, min_eq_right h]
      rcases ih with h2 | h2
      · exact Or.inl h2
      · exact Or.inr (List.mem_cons_of_mem _ h2)

lemma listMin_min (a e : ℝ) (l : List ℝ) : listMin (min a e) l = min a (listMin e l) := by
  induction l with
  | nil => rfl
  | cons x l ih =>
    rw [listMin_cons, listMin_cons, ih, min_left_comm]

lemma listMin_swap (e : ℝ) (l1 l2 : List ℝ) :
    listMin (listMin e l1) l2 = listMin (listMin e l2) l1 := by
  induction l1 generalizing e with
  | nil => rfl
  | cons x l1 ih =>
    rw [listMin_cons, listMin_min, ih, ← listMin_cons]

lemma listMin_append (e : ℝ) (l1 l2 : List ℝ) :
    listMin e (l1 ++ l2) = listMin (listMin e l1) l2 := by
  unfold listMin
  rw [List.foldr_append]
  exact listMin_swap e l2 l1

lemma listMin_eq_init (e : ℝ) {l : List ℝ} (h : ∀ x ∈ l, ¬ x ≤ e) : listMin e l = e := by
  induction l with
  | nil => rfl
  | cons x l ih =>
    rw [listMin_cons, ih (fun y hy => h y (List.mem_cons_of_mem _ hy))]
    exact min_eq_right (le_of_lt (not_le.mp (h x (List.mem_cons_self _ _))))

lemma listMin_nonneg (e : ℝ) {l : List ℝ} (hpos : ∀ x ∈ l, 0 ≤ x)
    (hex : ∃ x ∈ l, x ≤ e) : 0 ≤ listMin e l := by
  rcases listMin_attained e l with h | h
  · rcases hex with ⟨x, hx, hxe⟩
    have h1 : listMin e l ≤ x := listMin_le_mem e hx
    have h2 : 0 ≤ x := hpos x hx
    have h3 : x ≤ listMin e l := by rw [h]; exact hxe
    linarith
  · exact hpos _ h

lemma found_compose (e : ℝ) (l1 l2 : List ℝ) :
    ((∃ m ∈ l1, m ≤ e) ∨ (∃ m ∈ l2, m ≤ listMin e l1)) ↔ ∃ m ∈ l1 ++ l2, m ≤ e := by
  constructor
  · rintro (⟨m, hm, hle⟩ | ⟨m, hm, hle⟩)
    · exact ⟨m, List.mem_append_left _ hm, hle⟩
    · exact ⟨m, List.mem_append_right _ hm, le_trans hle (listMin_le_init e l1)⟩
  · rintro ⟨m, hm, hle⟩
    rcases List.mem_append.mp hm with h | h
    · exact Or.inl ⟨m, h, hle⟩
    · by_cases h2 : m ≤ listMin e l1
      · exact Or.inr ⟨m, h, h2⟩
      · rcases listMin_attained e l1 with h3 | h3
        · exact absurd (hle.trans h3.ge) h2
        · exact Or.inl ⟨listMin e l1, h3, listMin_le_init e l1⟩

lemma planeIntersect_false (y : ℝ) (path : List Bool) (ray : Ray) (data : IData)
    (h : (planeIntersect y path ray data).1 = false) :
    (planeIntersect y path ray data).2 = data := by
  simp only [planeIntersect] at h ⊢
  split_ifs at h ⊢ <;> simp_all

lemma planeIntersect_true (y : ℝ) (path : List Bool) (ray : Ray) (data : IData)
    (h : (planeIntersect y path ray data).1 = true) :
    (planeIntersect y path ray data).2.dist ≤ data.dist ∧
      0 ≤ (planeIntersect y path ray data).2.dist ∧
      (planeIntersect y path ray data).2.g = path := by
  simp only [planeIntersect] at h ⊢
  split_ifs at h ⊢ with h1 h2
  refine ⟨not_lt.mp h2, ?_, rfl⟩
  unfold planeGuard at h1
  push_neg at h1
  show 0 ≤ (ray.start.y - y) / -ray.dir.y
  rcases lt_trichotomy ray.start.y y with hy | hy | hy
  · have hd : (1e-9 : ℝ) ≤ ray.dir.y := h1.2 hy
    apply div_nonneg_of_nonpos (by linarith) (by linarith)
  · simp [hy]
  · have hd : ray.dir.y ≤ -1e-9 := h1.1 hy
    apply div_nonneg (by linarith) (by linarith)

lemma sphereIntersect_false (center : Vec3) (R : ℝ) (path : List Bool) (ray : Ray)
    (info : IData) (h : (sphereIntersect center R path ray info).1 = false) :
    (sphereIntersect center R path ray info).2 = info := by
  simp only [sphereIntersect] at h ⊢
  set sol := if sphereX2 center R ray < 0 then sphereX1 center R ray else sphereX2 center R ray
    with hsol
  split_ifs at h ⊢ <;> simp_all

lemma sphereIntersect_true (center : Vec3) (R : ℝ) (path : List Bool) (ray : Ray)
    (info : IData) (h : (sphereIntersect center R path ray info).1 = true) :
    (sphereIntersect center R path ray info).2.dist ≤ info.dist ∧
      0 ≤ (sphereIntersect center R path ray info).2.dist ∧
      (sphereIntersect center R path ray info).2.g = path := by
  simp only [sphereIntersect] at h ⊢
  set sol := if sphereX2 center R ray < 0 then sphereX1 center R ray else sphereX2 center R ray
    with hsol
  split_ifs at h ⊢ with h1 h2 h3
  exact ⟨not_lt.mp h3, not_lt.mp h2, rfl⟩

lemma cubeSideStep_dist (halfSide : ℝ) (center : Vec3) (ray : Ray) (s : ℝ)
    (fd : Bool × IData) :
    (cubeSideStep halfSide center ray s fd).2.dist =
      listMin fd.2.dist (cubeSideCand halfSide center ray s).toList := by
  simp only [cubeSideStep, cubeSideCand]
  split_ifs with h1 h2 h3 h4
  · rfl
  · rfl
  · simp only [Option.toList_some]
    rw [listMin_cons, listMin_nil, min_eq_right (le_of_lt h2)]
  · rfl
  · simp only [Option.toList_some]
    rw [listMin_cons, listMin_nil, min_eq_left (not_lt.mp h2)]

lemma cubeSideStep_fst (halfSide : ℝ) (center : Vec3) (ray : Ray) (s : ℝ)
    (fd : Bool × IData) :
    ((cubeSideStep halfSide center ray s fd).1 = true ↔
      fd.1 = true ∨ ∃ m ∈ (cubeSideCand halfSide center ray s).toList, m ≤ fd.2.dist) := by
  simp only [cubeSideStep, cubeSideCand]
  split_ifs with h1 h2 h3 h4
  · simp
  · simp
  · simp only [Option.toList_some, List.mem_singleton]
    constructor
    · exact fun h => Or.inl h
    · rintro (h | ⟨m, hm, hle⟩)
      · exact h
      · subst hm; exact absurd hle (not_le.mpr h2)
  · simp
  · simp only [Option.toList_some, List.mem_singleton]
    constructor
    · intro _; exact Or.inr ⟨_, rfl, not_lt.mp h2⟩
    · intro _; trivial

lemma cubeSideStep_false (halfSide : ℝ) (center : Vec3) (ray : Ray) (s : ℝ)
    (fd : Bool × IData) (h : (cubeSideStep halfSide center ray s fd).1 = false) :
    cubeSideStep halfSide center ray s fd = fd := by
  simp only [cubeSideStep] at h ⊢
  split_ifs at h ⊢ <;> simp_all

lemma intersectCubeSide_dist (halfSide : ℝ) (ray : Ray) (center : Vec3) (data : IData) :
    (intersectCubeSide halfSide ray center data).2.dist =
      listMin data.dist (cubeSideCands halfSide center ray) := by
  simp only [intersectCubeSide, cubeSideCands]
  split_ifs with h
  · rfl
  · rw [cubeSideStep_dist, cubeSideStep_dist, listMin_append]

lemma intersectCubeSide_fst (halfSide : ℝ) (ray : Ray) (center : Vec3) (data : IData) :
    ((intersectCubeSide halfSide ray center data).1 = true ↔
      ∃ m ∈ cubeSideCands halfSide center ray, m ≤ data.dist) := by
  simp only [intersectCubeSide, cubeSideCands]
  split_ifs with h
  · simp
  · rw [cubeSideStep_fst, cubeSideStep_fst, cubeSideStep_dist]
    simpa using found_compose data.dist (cubeSideCand halfSide center ray (-1)).toList
      (cubeSideCand halfSide center ray 1).toList

lemma intersectCubeSide_false (halfSide : ℝ) (ray : Ray) (center : Vec3) (data : IData)
    (h : (intersectCubeSide halfSide ray center data).1 = false) :
    (intersectCubeSide halfSide ray center data).2 = data := by
  simp only [intersectCubeSide] at h ⊢
  split_ifs at h ⊢ with hs
  · rfl
  · have h1 := cubeSideStep_false _ _ _ _ _ h
    rw [h1] at h ⊢
    have h2 := cubeSideStep_false _ _ _ _ _ h
    rw [h2]

lemma cubeSideCand_nonneg (halfSide : ℝ) (center : Vec3) (ray : Ray) (s : ℝ) :
    ∀ m ∈ (cubeSideCand halfSide center ray s).toList, 0 ≤ m := by
  intro m hm
  simp only [cubeSideCand] at hm
  split_ifs at hm with h1 h2
  · simp at hm
  · simp at hm
  · simp only [Option.toList_some, List.mem_singleton] at hm
    subst hm
    exact not_lt.mp h1

lemma cubeSideCands_nonneg (halfSide : ℝ) (center : Vec3) (ray : Ray) :
    ∀ m ∈ cubeSideCands halfSide center ray, 0 ≤ m := by
  intro m hm
  simp only [cubeSideCands] at hm
  split_ifs at hm with h
  · simp at hm
  · rcases List.mem_append.mp hm with h2 | h2
    · exact cubeSideCand_nonneg _ _ _ _ m h2
    · exact cubeSideCand_nonneg _ _ _ _ m h2

lemma cubeCands_nonneg (center : Vec3) (side : ℝ) (ray : Ray) :
    ∀ m ∈ cubeCands center side ray, 0 ≤ m := by
  intro m hm
  rcases List.mem_append.mp hm with h | h
  · rcases List.mem_append.mp h with h2 | h2
    · exact cubeSideCands_nonneg _ _ _ m h2
    · exact cubeSideCands_nonneg _ _ _ m h2
  · exact cubeSideCands_nonneg _ _ _ m h

lemma cubeIntersect_dist (center : Vec3) (side : ℝ) (path : List Bool) (ray : Ray)
    (data : IData) :
    (cubeIntersect center side path ray data).2.dist =
      listMin data.dist (cubeCands center side ray) := by
  simp only [cubeIntersect, cubeCands]
  set r1 := intersectCubeSide (side * 0.5) ray center data with hr1
  set r2 := intersectCubeSide (side * 0.5) (swapRayXY ray) (swapXY center) r1.2 with hr2
  set r2s := if r2.1 = true then { r2.2 with normal := swapXY r2.2.normal, p := swapXY r2.2.p }
    else r2.2 with hr2s
  set r3 := intersectCubeSide (side * 0.5) (swapRayYZ ray) (swapYZ center) r2s with hr3
  set r3s := if r3.1 = true then { r3.2 with normal := swapYZ r3.2.normal, p := swapYZ r3.2.p }
    else r3.2 with hr3s
  have hd2s : r2s.dist = r2.2.dist := by rw [hr2s]; split_ifs <;> rfl
  have hd3s : r3s.dist = r3.2.dist := by rw [hr3s]; split_ifs <;> rfl
  have hch : r3.2.dist = listMin (listMin (listMin data.dist
      (cubeSideCands (side * 0.5) center ray))
      (cubeSideCands (side * 0.5) (swapXY center) (swapRayXY ray)))
      (cubeSideCands (side * 0.5) (swapYZ center) (swapRayYZ ray)) := by
    rw [hr3, intersectCubeSide_dist, hd2s, hr2, intersectCubeSide_dist, hr1,
      intersectCubeSide_dist]
  rw [listMin_append, listMin_append]
  split_ifs with h
  · simpa [hd3s] using hch
  · simpa [hd3s] using hch

lemma cubeIntersect_fst (center : Vec3) (side : ℝ) (path : List Bool) (ray : Ray)
    (data : IData) :
    ((cubeIntersect center side path ray data).1 = true ↔
      ∃ m ∈ cubeCands center side ray, m ≤ data.dist) := by
  simp only [cubeIntersect, cubeCands]
  set r1 := intersectCubeSide (side * 0.5) ray center data with hr1
  set r2 := intersectCubeSide (side * 0.5) (swapRayXY ray) (swapXY center) r1.2 with hr2
  set r2s := if r2.1 = true then { r2.2 with normal := swapXY r2.2.normal, p := swapXY r2.2.p }
    else r2.2 with hr2s
  set r3 := intersectCubeSide (side * 0.5) (swapRayYZ ray) (swapYZ center) r2s with hr3
  have hd2s : r2s.dist = r2.2.dist := by rw [hr2s]; split_ifs <;> rfl
  have e1 : (r1.1 = true ↔ ∃ m ∈ cubeSideCands (side * 0.5) center ray, m ≤ data.dist) := by
    rw [hr1]; exact intersectCubeSide_fst _ _ _ _
  have e2 : (r2.1 = true ↔ ∃ m ∈ cubeSideCands (side * 0.5) (swapXY center) (swapRayXY ray),
      m ≤ listMin data.dist (cubeSideCands (side * 0.5) center ray)) := by
    rw [hr2]
    have := intersectCubeSide_fst (side * 0.5) (swapRayXY ray) (swapXY center) r1.2
    rwa [hr1, intersectCubeSide_dist] at this
  have e3 : (r3.1 = true ↔ ∃ m ∈ cubeSideCands (side * 0.5) (swapYZ center) (swapRayYZ ray),
      m ≤ listMin (listMin data.dist (cubeSideCands (side * 0.5) center ray))
        (cubeSideCands (side * 0.5) (swapXY center) (swapRayXY ray))) := by
    rw [hr3]
    have := intersectCubeSide_fst (side * 0.5) (swapRayYZ ray) (swapYZ center) r2s
    rwa [hd2s, hr2, intersectCubeSide_dist, hr1, intersectCubeSide_dist] at this
  have comp1 := found_compose data.dist (cubeSideCands (side * 0.5) center ray)
    (cubeSideCands (side * 0.5) (swapXY center) (swapRayXY ray))
  have comp2 := found_compose data.dist
    ((cubeSideCands (side * 0.5) center ray) ++
      (cubeSideCands (side * 0.5) (swapXY center) (swapRayXY ray)))
    (cubeSideCands (side * 0.5) (swapYZ center) (swapRayYZ ray))
  rw [listMin_append] at comp2
  have key : (r1.1 || r2.1 || r3.1) = true ↔
      ∃ m ∈ (cubeSideCands (side * 0.5) center ray ++
          cubeSideCands (side * 0.5) (swapXY center) (swapRayXY ray)) ++
        cubeSideCands (side * 0.5) (swapYZ center) (swapRayYZ ray), m ≤ data.dist := by
    rw [Bool.or_eq_true, Bool.or_eq_true, e1, e2, e3]
    exact (or_congr comp1 Iff.rfl).trans comp2
  rw [apply_ite Prod.fst]
  show (if (r1.1 || r2.1 || r3.1) = true then true else false) = true ↔ _
  split_ifs with h
  · exact ⟨fun _ => key.mp h, fun _ => rfl⟩
  · exact ⟨False.elim, fun hex => absurd (key.mpr hex) h⟩

lemma cubeIntersect_false (center : Vec3) (side : ℝ) (path : List Bool) (ray : Ray)
    (data : IData) (h : (cubeIntersect center side path ray data).1 = false) :
    (cubeIntersect center side path ray data).2 = data := by
  simp only [cubeIntersect] at h ⊢
  set r1 := intersectCubeSide (side * 0.5) ray center data with hr1
  set r2 := intersectCubeSide (side * 0.5) (swapRayXY ray) (swapXY center) r1.2 with hr2
  set r2s := if r2.1 = true then { r2.2 with normal := swapXY r2.2.normal, p := swapXY r2.2.p }
    else r2.2 with hr2s
  set r3 := intersectCubeSide (side * 0.5) (swapRayYZ ray) (swapYZ center) r2s with hr3
  set r3s := if r3.1 = true then { r3.2 with normal := swapYZ r3.2.normal, p := swapYZ r3.2.p }
    else r3.2 with hr3s
  have hc : ¬ ((r1.1 || r2.1 || r3.1) = true) := by
    intro hc
    rw [if_pos hc] at h
    simp at h
  rw [if_neg hc] at h ⊢
  have hall : r1.1 = false ∧ r2.1 = false ∧ r3.1 = false := by
    simpa [Bool.or_eq_true, not_or, Bool.not_eq_true, and_assoc] using hc
  have e1 : r1.2 = data := by rw [hr1]; exact intersectCubeSide_false _ _ _ _ (hr1 ▸ hall.1)
  have e2 : r2.2 = r1.2 := by rw [hr2]; exact intersectCubeSide_false _ _ _ _ (hr2 ▸ hall.2.1)
  have e2s : r2s = r1.2 := by rw [hr2s, if_neg (by rw [hall.2.1]; simp), e2]
  have e3 : r3.2 = r2s := by rw [hr3]; exact intersectCubeSide_false _ _ _ _ (hr3 ▸ hall.2.2)
  have e3s : r3s = r2s := by rw [hr3s, if_neg (by rw [hall.2.2]; simp), e3]
  show r3s = data
  rw [e3s, e2s, e1]

lemma cubeIntersect_g (center : Vec3) (side : ℝ) (path : List Bool) (ray : Ray)
    (data : IData) (h : (cubeIntersect center side path ray data).1 = true) :
    (cubeIntersect center side path ray data).2.g = path := by
  simp only [cubeIntersect] at h ⊢
  set r1 := intersectCubeSide (side * 0.5) ray center data with hr1
  set r2 := intersectCubeSide (side * 0.5) (swapRayXY ray) (swapXY center) r1.2 with hr2
  set r2s := if r2.1 = true then { r2.2 with normal := swapXY r2.2.normal, p := swapXY r2.2.p }
    else r2.2 with hr2s
  set r3 := intersectCubeSide (side * 0.5) (swapRayYZ ray) (swapYZ center) r2s with hr3
  set r3s := if r3.1 = true then { r3.2 with normal := swapYZ r3.2.normal, p := swapYZ r3.2.p }
    else r3.2 with hr3s
  have hc : (r1.1 || r2.1 || r3.1) = true := by
    by_contra hc
    rw [if_neg hc] at h
    simp at h
  rw [if_pos hc]

lemma csgSweep_some (op : Bool → Bool → Bool) (leftPath : List Bool) (dataDist : ℝ) :
    ∀ (l : List IData) (inL inR : Bool) (cur : IData),
      csgSweep op leftPath dataDist l inL inR = some cur →
      cur ∈ l ∧ cur.dist ≤ dataDist := by
  intro l
  induction l with
  | nil => intro inL inR cur h; simp [csgSweep] at h
  | cons x rest ih =>
    intro inL inR cur h
    simp only [csgSweep] at h
    set b1 := if csgFlipsLeft leftPath x = true then !inL else inL with hb1
    set b2 := if csgFlipsLeft leftPath x = true then inR else !inR with hb2
    split_ifs at h with h1 h2
    · have hxc : x = cur := Option.some.inj h
      subst hxc
      exact ⟨List.mem_cons_self _ _, not_lt.mp h2⟩
    · obtain ⟨hmem, hle⟩ := ih _ _ _ h
      exact ⟨List.mem_cons_of_mem _ hmem, hle⟩

lemma insertByDist_mem (x y : IData) (l : List IData) :
    (y ∈ insertByDist x l ↔ y = x ∨ y ∈ l) := by
  induction l with
  | nil => simp [insertByDist]
  | cons z zs ih =>
    simp only [insertByDist]
    split_ifs with h
    · simp only [List.mem_cons]
    · simp only [List.mem_cons, ih]
      tauto

lemma sortByDist_mem (y : IData) (l : List IData) : (y ∈ sortByDist l ↔ y ∈ l) := by
  induction l with
  | nil => simp [sortByDist]
  | cons x xs ih =>
    show y ∈ insertByDist x (sortByDist xs) ↔ _
    rw [insertByDist_mem, ih, List.mem_cons]

lemma findAllAux_g (child : Ray → IData → Bool × IData) (P : List Bool → Prop)
    (hchild : ∀ r d, (child r d).1 = true → P (child r d).2.g) :
    ∀ (fuel : ℕ) (ray : Ray) (c : ℝ), ∀ x ∈ findAllAux child fuel ray c, P x.g := by
  intro fuel
  induction fuel with
  | zero => intro ray c x hx; simp [findAllAux] at hx
  | succ n ih =>
    intro ray c x hx
    simp only [findAllAux] at hx
    split_ifs at hx with h
    · rcases List.mem_cons.mp hx with h2 | h2
      · rw [h2]
        exact hchild _ _ h
      · exact ih _ _ _ h2
    · simp at hx

lemma findAllAux_dist (child : Ray → IData → Bool × IData)
    (hchild : ∀ r d, (child r d).1 = true → 0 ≤ (child r d).2.dist) :
    ∀ (fuel : ℕ) (ray : Ray) (c : ℝ), 0 ≤ c → ∀ x ∈ findAllAux child fuel ray c, 0 ≤ x.dist := by
  intro fuel
  induction fuel with
  | zero => intro ray c hc x hx; simp [findAllAux] at hx
  | succ n ih =>
    intro ray c hc x hx
    simp only [findAllAux] at hx
    split_ifs at hx with h
    · rcases List.mem_cons.mp hx with h2 | h2
      · rw [h2]
        show 0 ≤ (child ray freshProbe).2.dist + c
        have := hchild _ _ h
        linarith
      · have hnn : (0:ℝ) ≤ (child ray freshProbe).2.dist + c :=
          add_nonneg (hchild ray freshProbe h) hc
        exact ih _ _ hnn _ h2
    · simp at hx

lemma intersect_csg (op : Bool → Bool → Bool) (l r : Geometry) (fuel : ℕ) (path : List Bool)
    (ray : Ray) (data : IData) :
    intersect (.csg op l r) fuel path ray data =
      (match csgSweep op (path ++ [false]) data.dist
          (sortByDist (csgChildHits l fuel (path ++ [false]) ray ++
            csgChildHits r fuel (path ++ [true]) ray))
          ((csgChildHits l fuel (path ++ [false]) ray).length % 2 == 1)
          ((csgChildHits r fuel (path ++ [true]) ray).length % 2 == 1) with
        | none => (false, data)
        | some cur => (true, cur)) := rfl

lemma intersect_plane (y : ℝ) (fuel : ℕ) (path : List Bool) (ray : Ray) (data : IData) :
    intersect (.plane y) fuel path ray data = planeIntersect y path ray data := rfl

lemma intersect_sphere (c : Vec3) (R : ℝ) (fuel : ℕ) (path : List Bool) (ray : Ray)
    (data : IData) :
    intersect (.sphere c R) fuel path ray data = sphereIntersect c R path ray data := rfl

lemma intersect_cube (c : Vec3) (s : ℝ) (fuel : ℕ) (path : List Bool) (ray : Ray)
    (data : IData) :
    intersect (.cube c s) fuel path ray data = cubeIntersect c s path ray data := rfl

lemma leafPaths_extend : ∀ (g : Geometry) (p q : List Bool), q ∈ leafPaths g p →
    ∃ s, q = p ++ s := by
  intro g
  induction g with
  | plane y =>
    intro p q h
    simp only [leafPaths, List.mem_singleton] at h
    exact ⟨[], by simp [h]⟩
  | sphere c R =>
    intro p q h
    simp only [leafPaths, List.mem_singleton] at h
    exact ⟨[], by simp [h]⟩
  | cube c s =>
    intro p q h
    simp only [leafPaths, List.mem_singleton] at h
    exact ⟨[], by simp [h]⟩
  | csg op l r ihl ihr =>
    intro p q h
    simp only [leafPaths] at h
    rcases List.mem_append.mp h with h2 | h2
    · obtain ⟨s, hs⟩ := ihl _ _ h2
      exact ⟨false :: s, by simp [hs]⟩
    · obtain ⟨s, hs⟩ := ihr _ _ h2
      exact ⟨true :: s, by simp [hs]⟩

lemma leafPaths_csg_ne (op : Bool → Bool → Bool) (l r : Geometry) (p q : List Bool)
    (h : q ∈ leafPaths (.csg op l r) p) : q ≠ p := by
  intro he
  simp only [leafPaths] at h
  rcases List.mem_append.mp h with h2 | h2
  · obtain ⟨s, hs⟩ := leafPaths_extend _ _ _ h2
    rw [he] at hs
    have := congrArg List.length hs
    simp [List.length_append] at this
  · obtain ⟨s, hs⟩ := leafPaths_extend _ _ _ h2
    rw [he] at hs
    have := congrArg List.length hs
    simp [List.length_append] at this

lemma intersect_primitive_g : ∀ (g : Geometry) (fuel : ℕ) (path : List Bool) (ray : Ray)
    (data : IData), g.isPrimitive = true → (intersect g fuel path ray data).1 = true →
    (intersect g fuel path ray data).2.g = path := by
  intro g fuel path ray data hp h
  cases g with
  | plane y => exact (planeIntersect_true y path ray data h).2.2
  | sphere c R => exact (sphereIntersect_true c R path ray data h).2.2
  | cube c s => exact cubeIntersect_g c s path ray data h
  | csg op l r => simp [Geometry.isPrimitive] at hp

lemma intersect_g_mem : ∀ (g : Geometry) (fuel : ℕ) (path : List Bool) (ray : Ray)
    (data : IData), (intersect g fuel path ray data).1 = true →
    (intersect g fuel path ray data).2.g ∈ leafPaths g path := by
  intro g
  induction g with
  | plane y =>
    intro fuel path ray data h
    rw [intersect_plane] at h ⊢
    rw [(planeIntersect_true y path ray data h).2.2]
    simp [leafPaths]
  | sphere c R =>
    intro fuel path ray data h
    rw [intersect_sphere] at h ⊢
    rw [(sphereIntersect_true c R path ray data h).2.2]
    simp [leafPaths]
  | cube c s =>
    intro fuel path ray data h
    rw [intersect_cube] at h ⊢
    rw [cubeIntersect_g c s path ray data h]
    simp [leafPaths]
  | csg op l r ihl ihr =>
    intro fuel path ray data h
    cases hsw : csgSweep op (path ++ [false]) data.dist
        (sortByDist (csgChildHits l fuel (path ++ [false]) ray ++
          csgChildHits r fuel (path ++ [true]) ray))
        ((csgChildHits l fuel (path ++ [false]) ray).length % 2 == 1)
        ((csgChildHits r fuel (path ++ [true]) ray).length % 2 == 1) with
    | none =>
      rw [intersect_csg, hsw] at h
      simp at h
    | some cur =>
      rw [intersect_csg, hsw]
      show cur.g ∈ leafPaths (Geometry.csg op l r) path
      obtain ⟨hmem, _⟩ := csgSweep_some _ _ _ _ _ _ _ hsw
      have hmem2 := (sortByDist_mem _ _).mp hmem
      simp only [leafPaths]
      rcases List.mem_append.mp hmem2 with h2 | h2
      · apply List.mem_append_left
        exact findAllAux_g _ (fun q => q ∈ leafPaths l (path ++ [false]))
          (fun rr dd hh => ihl fuel (path ++ [false]) rr dd hh) fuel ray 0 cur h2
      · apply List.mem_append_right
        exact findAllAux_g _ (fun q => q ∈ leafPaths r (path ++ [true]))
          (fun rr dd hh => ihr fuel (path ++ [true]) rr dd hh) fuel ray 0 cur h2

lemma mod_two_beq_odd (n : ℕ) : (n % 2 == 1) = decide (Odd n) := by
  by_cases h : n % 2 = 1 <;> simp [Nat.odd_iff, h]

/-- C4 counterexample input: a ray that starts exactly at the plane height
with a horizontal direction passes the guard of Plane::intersect and reaches
the division with a zero denominator. -/
theorem claim_C4_counterexample :
    ¬ planeGuard 0 ⟨⟨0, 0, 0⟩, ⟨1, 0, 0⟩⟩ ∧ (⟨⟨0, 0, 0⟩, ⟨1, 0, 0⟩⟩ : Ray).dir.y = 0 := by
  constructor
  · intro h
    rcases h with ⟨h1, _⟩ | ⟨h1, _⟩ <;> norm_num at h1
  · rfl

/-- C4 (amended): whenever the ray origin is not exactly at the plane height
and control passes the guard of Plane::intersect, the vertical direction
component has magnitude at least 1e-9, so the denominator of the division is
nonzero; when the origin sits exactly at the plane height the guard lets a
zero denominator through (see the counterexample). -/
theorem claim_C4_amended (y : ℝ) (ray : Ray) (hne : ray.start.y ≠ y)
    (hg : ¬ planeGuard y ray) : 1e-9 ≤ |ray.dir.y| := by
  unfold planeGuard at hg
  push_neg at hg
  rcases lt_or_gt_of_ne hne with h | h
  · have h2 := hg.2 h
    calc (1e-9 : ℝ) ≤ ray.dir.y := h2
    _ ≤ |ray.dir.y| := le_abs_self _
  · have h1 := hg.1 h
    have : (1e-9 : ℝ) ≤ -ray.dir.y := by linarith
    calc (1e-9 : ℝ) ≤ -ray.dir.y := this
    _ ≤ |ray.dir.y| := neg_le_abs _

/-- C4 witness: a descending ray from above the plane passes the guard with a
denominator of magnitude one. -/
theorem claim_C4_witness :
    (⟨⟨0, 5, 0⟩, ⟨0, -1, 0⟩⟩ : Ray).start.y ≠ (0 : ℝ) ∧
      ¬ planeGuard 0 ⟨⟨0, 5, 0⟩, ⟨0, -1, 0⟩⟩ ∧
      (1e-9 : ℝ) ≤ |(⟨⟨0, 5, 0⟩, ⟨0, -1, 0⟩⟩ : Ray).dir.y| := by
  refine ⟨by norm_num, ?_, ?_⟩
  · intro h
    rcases h with ⟨_, h2⟩ | ⟨h1, _⟩ <;> norm_num at *
  · exact claim_C4_amended 0 _ (by norm_num)
      (by intro h; rcases h with ⟨_, h2⟩ | ⟨h1, _⟩ <;> norm_num at *)

/-- C5: the source computes the asin argument for the sphere v coordinate as
the raw quotient, without the clamp the spec requires; at a quotient of 2 the
raw argument leaves the asin domain while the clamped variant stays at its
boundary, so the two computations differ exactly where the claim demands
protection. -/
theorem claim_C5_bug :
    sphereAsinArg 2 0 1 = 2 ∧ 1 < sphereAsinArg 2 0 1 ∧ sphereAsinArgClamped 2 0 1 = 1 := by
  refine ⟨?_, ?_, ?_⟩ <;> norm_num [sphereAsinArg, sphereAsinArgClamped]

/-- C7: Sphere::intersect reports no hit on a negative discriminant; with a
nonnegative discriminant it takes the smaller root x2 as the candidate when
x2 is nonnegative, falls back to the larger root x1 when x2 is negative, and
reports no hit when both roots are negative; the accepted candidate must not
exceed the incoming record distance. -/
theorem claim_C7 (center : Vec3) (R : ℝ) (path : List Bool) (ray : Ray) (info : IData) :
    (sphereDscr center R ray < 0 → sphereIntersect center R path ray info = (false, info)) ∧
    (0 ≤ sphereDscr center R ray → 0 ≤ sphereX2 center R ray →
      ((sphereIntersect center R path ray info).1 = true ↔ sphereX2 center R ray ≤ info.dist) ∧
      ((sphereIntersect center R path ray info).1 = true →
        (sphereIntersect center R path ray info).2.dist = sphereX2 center R ray)) ∧
    (0 ≤ sphereDscr center R ray → sphereX2 center R ray < 0 → 0 ≤ sphereX1 center R ray →
      ((sphereIntersect center R path ray info).1 = true ↔ sphereX1 center R ray ≤ info.dist) ∧
      ((sphereIntersect center R path ray info).1 = true →
        (sphereIntersect center R path ray info).2.dist = sphereX1 center R ray)) ∧
    (0 ≤ sphereDscr center R ray → sphereX2 center R ray < 0 → sphereX1 center R ray < 0 →
      sphereIntersect center R path ray info = (false, info)) := by
  refine ⟨?_, ?_, ?_, ?_⟩
  · intro h
    simp only [sphereIntersect, if_pos h]
  · intro hD hx2
    have hsol : (if sphereX2 center R ray < 0 then sphereX1 center R ray
        else sphereX2 center R ray) = sphereX2 center R ray := if_neg (not_lt.mpr hx2)
    simp only [sphereIntersect, hsol]
    rw [if_neg (not_lt.mpr hD), if_neg (not_lt.mpr hx2)]
    by_cases hgt : sphereX2 center R ray > info.dist
    · rw [if_pos hgt]
      refine ⟨⟨fun h => by simp at h, fun h => absurd hgt (not_lt.mpr h)⟩, fun h => by simp at h⟩
    · rw [if_neg hgt]
      exact ⟨⟨fun _ => not_lt.mp hgt, fun _ => rfl⟩, fun _ => rfl⟩
  · intro hD hx2 hx1
    have hsol : (if sphereX2 center R ray < 0 then sphereX1 center R ray
        else sphereX2 center R ray) = sphereX1 center R ray := if_pos hx2
    simp only [sphereIntersect, hsol]
    rw [if_neg (not_lt.mpr hD), if_neg (not_lt.mpr hx1)]
    by_cases hgt : sphereX1 center R ray > info.dist
    · rw [if_pos hgt]
      refine ⟨⟨fun h => by simp at h, fun h => absurd hgt (not_lt.mpr h)⟩, fun h => by simp at h⟩
    · rw [if_neg hgt]
      exact ⟨⟨fun _ => not_lt.mp hgt, fun _ => rfl⟩, fun _ => rfl⟩
  · intro hD hx2 hx1
    have hsol : (if sphereX2 center R ray < 0 then sphereX1 center R ray
        else sphereX2 center R ray) = sphereX1 center R ray := if_pos hx2
    simp only [sphereIntersect, hsol]
    rw [if_neg (not_lt.mpr hD), if_pos hx1]

/-- C3: for every geometry variant and every ray, whenever intersect returns
false the caller record comes back exactly as it went in, every field equal to
its entry value; in particular a ray missing both children of a CSG node
returns no hit with the record untouched. -/
theorem claim_C3 (g : Geometry) (fuel : ℕ) (path : List Bool) (ray : Ray) (data : IData)
    (h : (intersect g fuel path ray data).1 = false) :
    (intersect g fuel path ray data).2 = data := by
  cases g with
  | plane y =>
    rw [intersect_plane] at h ⊢
    exact planeIntersect_false _ _ _ _ h
  | sphere c R =>
    rw [intersect_sphere] at h ⊢
    exact sphereIntersect_false _ _ _ _ _ h
  | cube c s =>
    rw [intersect_cube] at h ⊢
    exact cubeIntersect_false _ _ _ _ _ h
  | csg op l r =>
    cases hsw : csgSweep op (path ++ [false]) data.dist
        (sortByDist (csgChildHits l fuel (path ++ [false]) ray ++
          csgChildHits r fuel (path ++ [true]) ray))
        ((csgChildHits l fuel (path ++ [false]) ray).length % 2 == 1)
        ((csgChildHits r fuel (path ++ [true]) ray).length % 2 == 1) with
    | none =>
      rw [intersect_csg, hsw]
    | some cur =>
      rw [intersect_csg, hsw] at h
      simp at h

/-- C2 (amended): for every geometry variant, a successful intersect writes a
distance less than or equal to the distance the record held on entry (the code
accepts a candidate exactly equal to the entry distance, so the bound is not
strict), and output fields are only written on a successful return. -/
theorem claim_C2_amended (g : Geometry) (fuel : ℕ) (path : List Bool) (ray : Ray)
    (data : IData) (h : (intersect g fuel path ray data).1 = true) :
    (intersect g fuel path ray data).2.dist ≤ data.dist := by
  cases g with
  | plane y =>
    rw [intersect_plane] at h ⊢
    exact (planeIntersect_true _ _ _ _ h).1
  | sphere c R =>
    rw [intersect_sphere] at h ⊢
    exact (sphereIntersect_true _ _ _ _ _ h).1
  | cube c s =>
    rw [intersect_cube]
    rw [cubeIntersect_dist]
    exact listMin_le_init _ _
  | csg op l r =>
    cases hsw : csgSweep op (path ++ [false]) data.dist
        (sortByDist (csgChildHits l fuel (path ++ [false]) ray ++
          csgChildHits r fuel (path ++ [true]) ray))
        ((csgChildHits l fuel (path ++ [false]) ray).length % 2 == 1)
        ((csgChildHits r fuel (path ++ [true]) ray).length % 2 == 1) with
    | none =>
      rw [intersect_csg, hsw] at h
      simp at h
    | some cur =>
      rw [intersect_csg, hsw]
      show cur.dist ≤ data.dist
      exact (csgSweep_some _ _ _ _ _ _ _ hsw).2

/-- C9: every successful intersect, for every variant including CSG nodes,
reports a nonnegative distance: a hit strictly behind the ray origin is never
reported. -/
theorem claim_C9 : ∀ (g : Geometry) (fuel : ℕ) (path : List Bool) (ray : Ray) (data : IData),
    (intersect g fuel path ray data).1 = true → 0 ≤ (intersect g fuel path ray data).2.dist := by
  intro g
  induction g with
  | plane y =>
    intro fuel path ray data h
    rw [intersect_plane] at h ⊢
    exact (planeIntersect_true _ _ _ _ h).2.1
  | sphere c R =>
    intro fuel path ray data h
    rw [intersect_sphere] at h ⊢
    exact (sphereIntersect_true _ _ _ _ _ h).2.1
  | cube c s =>
    intro fuel path ray data h
    rw [intersect_cube] at h ⊢
    rw [cubeIntersect_dist]
    exact listMin_nonneg _ (cubeCands_nonneg c s ray) ((cubeIntersect_fst c s path ray data).mp h)
  | csg op l r ihl ihr =>
    intro fuel path ray data h
    cases hsw : csgSweep op (path ++ [false]) data.dist
        (sortByDist (csgChildHits l fuel (path ++ [false]) ray ++
          csgChildHits r fuel (path ++ [true]) ray))
        ((csgChildHits l fuel (path ++ [false]) ray).length % 2 == 1)
        ((csgChildHits r fuel (path ++ [true]) ray).length % 2 == 1) with
    | none =>
      rw [intersect_csg, hsw] at h
      simp at h
    | some cur =>
      rw [intersect_csg, hsw]
      show 0 ≤ cur.dist
      obtain ⟨hmem, _⟩ := csgSweep_some _ _ _ _ _ _ _ hsw
      have hmem2 := (sortByDist_mem _ _).mp hmem
      rcases List.mem_append.mp hmem2 with h2 | h2
      · exact findAllAux_dist _ (fun rr dd hh => ihl fuel (path ++ [false]) rr dd hh)
          fuel ray 0 le_rfl cur h2
      · exact findAllAux_dist _ (fun rr dd hh => ihr fuel (path ++ [true]) rr dd hh)
          fuel ray 0 le_rfl cur h2

/-- C10: a successful CsgOp::intersect reports as owner the identity of a
primitive leaf of its subtree, never the CsgOp node itself, and the output
record is one of the child probe hits copied unchanged. -/
theorem claim_C10 (fuel : ℕ) (op : Bool → Bool → Bool) (l r : Geometry) (path : List Bool)
    (ray : Ray) (data : IData)
    (h : (intersect (.csg op l r) fuel path ray data).1 = true) :
    (intersect (.csg op l r) fuel path ray data).2.g ∈ leafPaths (.csg op l r) path ∧
      (intersect (.csg op l r) fuel path ray data).2.g ≠ path ∧
      ∃ cur ∈ csgChildHits l fuel (path ++ [false]) ray ++
          csgChildHits r fuel (path ++ [true]) ray,
        (intersect (.csg op l r) fuel path ray data).2 = cur := by
  have hmemg := intersect_g_mem (.csg op l r) fuel path ray data h
  refine ⟨hmemg, leafPaths_csg_ne op l r path _ hmemg, ?_⟩
  cases hsw : csgSweep op (path ++ [false]) data.dist
      (sortByDist (csgChildHits l fuel (path ++ [false]) ray ++
        csgChildHits r fuel (path ++ [true]) ray))
      ((csgChildHits l fuel (path ++ [false]) ray).length % 2 == 1)
      ((csgChildHits r fuel (path ++ [true]) ray).length % 2 == 1) with
  | none =>
    rw [intersect_csg, hsw] at h
    simp at h
  | some cur =>
    rw [intersect_csg, hsw]
    obtain ⟨hmem, _⟩ := csgSweep_some _ _ _ _ _ _ _ hsw
    exact ⟨cur, (sortByDist_mem _ _).mp hmem, rfl⟩

/-- C6: in CsgOp::intersect the initial inside flag of each child, before the
sweep runs, is exactly the parity bit of that child hit count: the sweep is
started with flags true exactly when the number of hits enumerated for the
respective child is odd. -/
theorem claim_C6 (op : Bool → Bool → Bool) (l r : Geometry) (fuel : ℕ) (path : List Bool)
    (ray : Ray) (data : IData) :
    intersect (.csg op l r) fuel path ray data =
      (match csgSweep op (path ++ [false]) data.dist
          (sortByDist (csgChildHits l fuel (path ++ [false]) ray ++
            csgChildHits r fuel (path ++ [true]) ray))
          (decide (Odd (csgChildHits l fuel (path ++ [false]) ray).length))
          (decide (Odd (csgChildHits r fuel (path ++ [true]) ray).length)) with
        | none => (false, data)
        | some cur => (true, cur)) := by
  rw [intersect_csg, mod_two_beq_odd, mod_two_beq_odd]

/-- C1 (amended): in the CsgOp sweep, every hit enumerated from a primitive
left child passes the owner test and so flips the left flag, and every hit
enumerated from the right child (primitive or nested) fails the owner test
and so flips the right flag; when the left child is itself a CSG node its
hits carry a leaf identity different from the left child reference, so the
owner test fails for them and the right flag is flipped instead (see the
counterexample). -/
theorem claim_C1_amended (fuel : ℕ) (l r : Geometry) (path : List Bool) (ray : Ray)
    (hp : l.isPrimitive = true) :
    (∀ h ∈ csgChildHits l fuel (path ++ [false]) ray,
        csgFlipsLeft (path ++ [false]) h = true) ∧
    (∀ h ∈ csgChildHits r fuel (path ++ [true]) ray,
        csgFlipsLeft (path ++ [false]) h = false) := by
  constructor
  · intro h hmem
    have hg : h.g = path ++ [false] :=
      findAllAux_g _ (fun q => q = path ++ [false])
        (fun rr dd hh => intersect_primitive_g l fuel (path ++ [false]) rr dd hp hh)
        fuel ray 0 h hmem
    simp [csgFlipsLeft, hg]
  · intro h hmem
    have hg : h.g ∈ leafPaths r (path ++ [true]) :=
      findAllAux_g _ (fun q => q ∈ leafPaths r (path ++ [true]))
        (fun rr dd hh => intersect_g_mem r fuel (path ++ [true]) rr dd hh)
        fuel ray 0 h hmem
    obtain ⟨s, hs⟩ := leafPaths_extend _ _ _ hg
    have hne : h.g ≠ path ++ [false] := by
      rw [hs]
      intro he
      have h1 : ([true] ++ s) = [false] := by
        have h2 : path ++ ([true] ++ s) = path ++ [false] := by
          rw [← List.append_assoc]
          exact he
        exact List.append_cancel_left h2
      simp at h1
    simp [csgFlipsLeft, hne]

lemma Vec3.add_mk (a b : Vec3) : a + b = ⟨a.x + b.x, a.y + b.y, a.z + b.z⟩ := rfl

lemma Vec3.sub_mk (a b : Vec3) : a - b = ⟨a.x - b.x, a.y - b.y, a.z - b.z⟩ := rfl

/-- C2 counterexample: against the plane at height 0, a vertical ray from
height 5 with the record distance already equal to 5 is accepted and the
written distance equals the entry distance, so the output distance is not
strictly smaller than the entry value. -/
theorem claim_C2_counterexample :
    ((intersect (.plane 0) 1 [] ⟨⟨0, 5, 0⟩, ⟨0, -1, 0⟩⟩
        ⟨5, ⟨0, 0, 0⟩, ⟨0, 0, 0⟩, 0, 0, []⟩).1 = true) ∧
    ¬ ((intersect (.plane 0) 1 [] ⟨⟨0, 5, 0⟩, ⟨0, -1, 0⟩⟩
        ⟨5, ⟨0, 0, 0⟩, ⟨0, 0, 0⟩, 0, 0, []⟩).2.dist <
        (⟨5, ⟨0, 0, 0⟩, ⟨0, 0, 0⟩, 0, 0, []⟩ : IData).dist) := by
  have hg : ¬ planeGuard 0 (⟨⟨0, 5, 0⟩, ⟨0, -1, 0⟩⟩ : Ray) := by
    intro hg
    rcases hg with ⟨_, h2⟩ | ⟨h1, _⟩ <;> norm_num at *
  have he : intersect (.plane 0) 1 [] (⟨⟨0, 5, 0⟩, ⟨0, -1, 0⟩⟩ : Ray)
      ⟨5, ⟨0, 0, 0⟩, ⟨0, 0, 0⟩, 0, 0, []⟩ =
      (true, ⟨5, ⟨0, 0, 0⟩, ⟨0, 1, 0⟩, 0, 0, []⟩) := by
    rw [intersect_plane]
    simp only [planeIntersect]
    rw [if_neg hg]
    norm_num [Vec3.add_mk, Vec3.smul]
  rw [he]
  norm_num

/-- C2 witness: the plane basic case, with a fresh record distance of 1000,
succeeds and writes distance 5, not exceeding the entry value. -/
theorem claim_C2_witness :
    ((intersect (.plane 0) 1 [] ⟨⟨0, 5, 0⟩, ⟨0, -1, 0⟩⟩
        ⟨1000, ⟨0, 0, 0⟩, ⟨0, 0, 0⟩, 0, 0, []⟩).1 = true) ∧
    (intersect (.plane 0) 1 [] ⟨⟨0, 5, 0⟩, ⟨0, -1, 0⟩⟩
        ⟨1000, ⟨0, 0, 0⟩, ⟨0, 0, 0⟩, 0, 0, []⟩).2.dist ≤
      (⟨1000, ⟨0, 0, 0⟩, ⟨0, 0, 0⟩, 0, 0, []⟩ : IData).dist := by
  have hg : ¬ planeGuard 0 (⟨⟨0, 5, 0⟩, ⟨0, -1, 0⟩⟩ : Ray) := by
    intro hg
    rcases hg with ⟨_, h2⟩ | ⟨h1, _⟩ <;> norm_num at *
  have he : intersect (.plane 0) 1 [] (⟨⟨0, 5, 0⟩, ⟨0, -1, 0⟩⟩ : Ray)
      ⟨1000, ⟨0, 0, 0⟩, ⟨0, 0, 0⟩, 0, 0, []⟩ =
      (true, ⟨5, ⟨0, 0, 0⟩, ⟨0, 1, 0⟩, 0, 0, []⟩) := by
    rw [intersect_plane]
    simp only [planeIntersect]
    rw [if_neg hg]
    norm_num [Vec3.add_mk, Vec3.smul]
  have h1 : (intersect (.plane 0) 1 [] (⟨⟨0, 5, 0⟩, ⟨0, -1, 0⟩⟩ : Ray)
      ⟨1000, ⟨0, 0, 0⟩, ⟨0, 0, 0⟩, 0, 0, []⟩).1 = true := by rw [he]
  exact ⟨h1, claim_C2_amended _ _ _ _ _ h1⟩

/-- C3 witness: an ascending ray above the plane misses and the record is
returned untouched. -/
theorem claim_C3_witness :
    ((intersect (.plane 0) 1 [] ⟨⟨0, 5, 0⟩, ⟨0, 1, 0⟩⟩
        ⟨1000, ⟨0, 0, 0⟩, ⟨0, 0, 0⟩, 0, 0, []⟩).1 = false) ∧
    (intersect (.plane 0) 1 [] ⟨⟨0, 5, 0⟩, ⟨0, 1, 0⟩⟩
        ⟨1000, ⟨0, 0, 0⟩, ⟨0, 0, 0⟩, 0, 0, []⟩).2 =
      ⟨1000, ⟨0, 0, 0⟩, ⟨0, 0, 0⟩, 0, 0, []⟩ := by
  have hgp : planeGuard 0 (⟨⟨0, 5, 0⟩, ⟨0, 1, 0⟩⟩ : Ray) := by
    unfold planeGuard
    norm_num
  have h1 : (intersect (.plane 0) 1 [] (⟨⟨0, 5, 0⟩, ⟨0, 1, 0⟩⟩ : Ray)
      ⟨1000, ⟨0, 0, 0⟩, ⟨0, 0, 0⟩, 0, 0, []⟩).1 = false := by
    rw [intersect_plane]
    simp only [planeIntersect]
    rw [if_pos hgp]
  exact ⟨h1, claim_C3 _ _ _ _ _ h1⟩

/-- C9 witness: the plane at height 1, hit from height 4, reports the
nonnegative distance 3. -/
theorem claim_C9_witness :
    ((intersect (.plane 1) 1 [] ⟨⟨0, 4, 0⟩, ⟨0, -1, 0⟩⟩
        ⟨1000, ⟨0, 0, 0⟩, ⟨0, 0, 0⟩, 0, 0, []⟩).1 = true) ∧
    0 ≤ (intersect (.plane 1) 1 [] ⟨⟨0, 4, 0⟩, ⟨0, -1, 0⟩⟩
        ⟨1000, ⟨0, 0, 0⟩, ⟨0, 0, 0⟩, 0, 0, []⟩).2.dist := by
  have hg : ¬ planeGuard 1 (⟨⟨0, 4, 0⟩, ⟨0, -1, 0⟩⟩ : Ray) := by
    intro hg
    rcases hg with ⟨_, h2⟩ | ⟨h1, _⟩ <;> norm_num at *
  have he : intersect (.plane 1) 1 [] (⟨⟨0, 4, 0⟩, ⟨0, -1, 0⟩⟩ : Ray)
      ⟨1000, ⟨0, 0, 0⟩, ⟨0, 0, 0⟩, 0, 0, []⟩ =
      (true, ⟨3, ⟨0, 1, 0⟩, ⟨0, 1, 0⟩, 0, 0, []⟩) := by
    rw [intersect_plane]
    simp only [planeIntersect]
    rw [if_neg hg]
    norm_num [Vec3.add_mk, Vec3.smul]
  have h1 : (intersect (.plane 1) 1 [] (⟨⟨0, 4, 0⟩, ⟨0, -1, 0⟩⟩ : Ray)
      ⟨1000, ⟨0, 0, 0⟩, ⟨0, 0, 0⟩, 0, 0, []⟩).1 = true := by rw [he]
  exact ⟨h1, claim_C9 _ _ _ _ _ h1⟩

/-- C7 witness: the unit sphere at the origin, hit along the x axis from
x = -3: the discriminant is 4, the smaller root is 2 and is taken, and the
intersection succeeds against a record distance of 1000. -/
theorem claim_C7_witness :
    0 ≤ sphereDscr ⟨0, 0, 0⟩ 1 ⟨⟨-3, 0, 0⟩, ⟨1, 0, 0⟩⟩ ∧
    0 ≤ sphereX2 ⟨0, 0, 0⟩ 1 ⟨⟨-3, 0, 0⟩, ⟨1, 0, 0⟩⟩ ∧
    (sphereIntersect ⟨0, 0, 0⟩ 1 [] ⟨⟨-3, 0, 0⟩, ⟨1, 0, 0⟩⟩
        ⟨1000, ⟨0, 0, 0⟩, ⟨0, 0, 0⟩, 0, 0, []⟩).1 = true := by
  have hD : sphereDscr ⟨0, 0, 0⟩ 1 ⟨⟨-3, 0, 0⟩, ⟨1, 0, 0⟩⟩ = 4 := by
    norm_num [sphereDscr, sphereB, sphereA, sphereCcoef, Vec3.dot, Vec3.lengthSqr, Vec3.sub_mk]
  have hsqrt : Real.sqrt 4 = 2 := by
    rw [show (4 : ℝ) = 2 ^ 2 by norm_num, Real.sqrt_sq (by norm_num : (0:ℝ) ≤ 2)]
  have hx2 : sphereX2 ⟨0, 0, 0⟩ 1 ⟨⟨-3, 0, 0⟩, ⟨1, 0, 0⟩⟩ = 2 := by
    simp only [sphereX2, hD, hsqrt]
    norm_num [sphereB, sphereA, Vec3.dot, Vec3.lengthSqr, Vec3.sub_mk]
  have h0D : 0 ≤ sphereDscr ⟨0, 0, 0⟩ 1 ⟨⟨-3, 0, 0⟩, ⟨1, 0, 0⟩⟩ := by rw [hD]; norm_num
  have h0x2 : 0 ≤ sphereX2 ⟨0, 0, 0⟩ 1 ⟨⟨-3, 0, 0⟩, ⟨1, 0, 0⟩⟩ := by rw [hx2]; norm_num
  refine ⟨h0D, h0x2, ?_⟩
  exact ((claim_C7 ⟨0, 0, 0⟩ 1 [] ⟨⟨-3, 0, 0⟩, ⟨1, 0, 0⟩⟩
      ⟨1000, ⟨0, 0, 0⟩, ⟨0, 0, 0⟩, 0, 0, []⟩).2.1 h0D h0x2).1.mpr (by rw [hx2]; norm_num)

/-- C8: Cube::intersect runs all three axis pair tests without short
circuiting; it succeeds exactly when some forward in-bounds face candidate
beats the entry distance, the written distance is the minimum over all the
candidates of the three axis pairs (so the nearest face wins), and an axis
pair whose direction component is below 1e-9 in magnitude contributes no
candidates at all. -/
theorem claim_C8 (center : Vec3) (side : ℝ) (fuel : ℕ) (path : List Bool) (ray : Ray)
    (data : IData) :
    ((intersect (.cube center side) fuel path ray data).1 = true ↔
      ∃ m ∈ cubeCands center side ray, m ≤ data.dist) ∧
    (intersect (.cube center side) fuel path ray data).2.dist =
      listMin data.dist (cubeCands center side ray) ∧
    (|ray.dir.y| < 1e-9 → cubeSideCands (side * 0.5) center ray = []) := by
  rw [intersect_cube]
  refine ⟨cubeIntersect_fst center side path ray data, cubeIntersect_dist center side path ray data, ?_⟩
  intro h
  simp only [cubeSideCands]
  rw [if_pos h]

/-- C8 witness: the axis aligned cube of side 2 at the origin, probed by a
horizontal ray from x = -5: the Y and Z axis pairs have a tiny direction
component and contribute no candidates, the X axis pair contributes the
candidates 4 and 6, the intersection succeeds and the nearest candidate 4 is
the written distance. -/
theorem claim_C8_witness :
    (|(⟨⟨-5, 0, 0⟩, ⟨1, 0, 0⟩⟩ : Ray).dir.y| < 1e-9) ∧
    cubeSideCands ((2 : ℝ) * 0.5) ⟨0, 0, 0⟩ ⟨⟨-5, 0, 0⟩, ⟨1, 0, 0⟩⟩ = [] ∧
    ((intersect (.cube ⟨0, 0, 0⟩ 2) 1 [] ⟨⟨-5, 0, 0⟩, ⟨1, 0, 0⟩⟩
        ⟨1000, ⟨0, 0, 0⟩, ⟨0, 0, 0⟩, 0, 0, []⟩).1 = true) ∧
    (intersect (.cube ⟨0, 0, 0⟩ 2) 1 [] ⟨⟨-5, 0, 0⟩, ⟨1, 0, 0⟩⟩
        ⟨1000, ⟨0, 0, 0⟩, ⟨0, 0, 0⟩, 0, 0, []⟩).2.dist = 4 := by
  have habs : |(⟨⟨-5, 0, 0⟩, ⟨1, 0, 0⟩⟩ : Ray).dir.y| < 1e-9 := by norm_num
  have hc : cubeCands ⟨0, 0, 0⟩ 2 ⟨⟨-5, 0, 0⟩, ⟨1, 0, 0⟩⟩ = [4, 6] := by
    norm_num [cubeCands, cubeSideCands, cubeSideCand, swapXY, swapYZ, swapRayXY, swapRayYZ,
      Vec3.add_mk, Vec3.smul]
  obtain ⟨hfst, hdist, hskip⟩ := claim_C8 ⟨0, 0, 0⟩ 2 1 [] ⟨⟨-5, 0, 0⟩, ⟨1, 0, 0⟩⟩
    ⟨1000, ⟨0, 0, 0⟩, ⟨0, 0, 0⟩, 0, 0, []⟩
  refine ⟨habs, hskip habs, hfst.mpr ⟨4, by rw [hc]; simp, by norm_num⟩, ?_⟩
  rw [hdist, hc]
  show min 4 (min 6 (1000 : ℝ)) = 4
  norm_num [min_def]

lemma csgEvalL : csgChildHits (.plane 0) 2 [false] ⟨⟨0, 5, 0⟩, ⟨0, -1, 0⟩⟩ =
    [⟨5, ⟨0, 0, 0⟩, ⟨0, 1, 0⟩, 0, 0, [false]⟩] := by
  norm_num [csgChildHits, findAllAux, intersect_plane, planeIntersect, planeGuard, freshProbe,
    Vec3.add_mk, Vec3.smul]

lemma csgEvalR : csgChildHits (.plane (-20)) 2 [true] ⟨⟨0, 5, 0⟩, ⟨0, -1, 0⟩⟩ =
    [⟨25, ⟨0, -20, 0⟩, ⟨0, 1, 0⟩, 0, 0, [true]⟩] := by
  norm_num [csgChildHits, findAllAux, intersect_plane, planeIntersect, planeGuard, freshProbe,
    Vec3.add_mk, Vec3.smul]

lemma csgEvalUnion :
    intersect (.csg (fun a b => a || b) (.plane 0) (.plane (-20))) 2 []
      ⟨⟨0, 5, 0⟩, ⟨0, -1, 0⟩⟩ ⟨1000, ⟨0, 0, 0⟩, ⟨0, 0, 0⟩, 0, 0, []⟩ =
      (true, ⟨5, ⟨0, 0, 0⟩, ⟨0, 1, 0⟩, 0, 0, [false]⟩) := by
  rw [intersect_csg]
  norm_num [csgEvalL, csgEvalR, sortByDist, insertByDist, csgSweep, csgFlipsLeft]

/-- C10 witness: the union of the planes at heights 0 and -20, probed from
height 5, answers with the owner set to the left leaf identity, which lies
among the leaves of the tree and differs from the root identity. -/
theorem claim_C10_witness :
    ((intersect (.csg (fun a b => a || b) (.plane 0) (.plane (-20))) 2 []
        ⟨⟨0, 5, 0⟩, ⟨0, -1, 0⟩⟩ ⟨1000, ⟨0, 0, 0⟩, ⟨0, 0, 0⟩, 0, 0, []⟩).2.g ∈
      leafPaths (.csg (fun a b => a || b) (.plane 0) (.plane (-20))) []) ∧
    (intersect (.csg (fun a b => a || b) (.plane 0) (.plane (-20))) 2 []
        ⟨⟨0, 5, 0⟩, ⟨0, -1, 0⟩⟩ ⟨1000, ⟨0, 0, 0⟩, ⟨0, 0, 0⟩, 0, 0, []⟩).2.g ≠
      ([] : List Bool) := by
  have h1 : (intersect (.csg (fun a b => a || b) (.plane 0) (.plane (-20))) 2 []
      ⟨⟨0, 5, 0⟩, ⟨0, -1, 0⟩⟩ ⟨1000, ⟨0, 0, 0⟩, ⟨0, 0, 0⟩, 0, 0, []⟩).1 = true := by
    rw [csgEvalUnion]
  obtain ⟨ha, hb, _⟩ := claim_C10 2 (fun a b => a || b) (.plane 0) (.plane (-20)) []
    ⟨⟨0, 5, 0⟩, ⟨0, -1, 0⟩⟩ ⟨1000, ⟨0, 0, 0⟩, ⟨0, 0, 0⟩, 0, 0, []⟩ h1
  exact ⟨ha, hb⟩

/-- C1 witness: with the primitive left child plane 0 and right child plane
-20, the enumerated left hit passes the owner test and the enumerated right
hit fails it, so each flips its own flag. -/
theorem claim_C1_witness :
    csgFlipsLeft [false] ⟨5, ⟨0, 0, 0⟩, ⟨0, 1, 0⟩, 0, 0, [false]⟩ = true ∧
    csgFlipsLeft [false] ⟨25, ⟨0, -20, 0⟩, ⟨0, 1, 0⟩, 0, 0, [true]⟩ = false := by
  have hp : (Geometry.plane 0).isPrimitive = true := rfl
  obtain ⟨hL, hR⟩ := claim_C1_amended 2 (.plane 0) (.plane (-20)) []
    ⟨⟨0, 5, 0⟩, ⟨0, -1, 0⟩⟩ hp
  constructor
  · exact hL _ (by simp [csgEvalL])
  · exact hR _ (by simp [csgEvalR])

lemma csgEvalNested :
    csgChildHits (.csg (fun a b => a || b) (.plane 3) (.plane (-100))) 2 [false]
      ⟨⟨0, 5, 0⟩, ⟨0, -1, 0⟩⟩ =
    [⟨2, ⟨0, 3, 0⟩, ⟨0, 1, 0⟩, 0, 0, [false, false]⟩] := by
  norm_num [csgChildHits, findAllAux, intersect, planeIntersect, planeGuard, freshProbe,
    sortByDist, insertByDist, csgSweep, csgFlipsLeft, Vec3.add_mk, Vec3.smul]

/-- C1 counterexample: take the left child of a CSG node to be itself a CSG
node (the union of the planes at heights 3 and -100) and probe it from height
5; the single hit enumerated for this left child carries the owner identity
of the leaf plane (path of the left leaf of the left child), not the identity
of the left child itself, so the sweep owner test fails for a hit the left
subtree produced and flips the right flag instead of the left flag. -/
theorem claim_C1_counterexample :
    (csgChildHits (.csg (fun a b => a || b) (.plane 3) (.plane (-100))) 2 [false]
      ⟨⟨0, 5, 0⟩, ⟨0, -1, 0⟩⟩).map (csgFlipsLeft [false]) = [false] ∧
    (csgChildHits (.csg (fun a b => a || b) (.plane 3) (.plane (-100))) 2 [false]
      ⟨⟨0, 5, 0⟩, ⟨0, -1, 0⟩⟩).map IData.g = [[false, false]] := by
  rw [csgEvalNested]
  constructor
  · simp [csgFlipsLeft]
  · simp
